import Mathlib

/-!
Verification development for the autocomplete-extraction crawler
(`src/api_client.py`, `src/utils/rate_limiter.py`,
`src/extractors/base_extractor.py`, `src/extractors/v1/v2/v3_extractor.py`).

The Python source is shallowly embedded: every definition below is a direct
translation of the corresponding Python function, with network responses,
parsed JSON payloads and the clock supplied as explicit parameters so that
the otherwise effectful code becomes pure state passing.
-/

/-! ## JSON payload model

A parsed JSON value, as produced by Python's `json.loads` / `response.json()`.
Object fields are kept as an association list; `json.loads` produces dicts
with unique keys (duplicates collapse), so lookups below use first-match. -/

inductive JsonVal where
  | null
  | boolv (b : Bool)
  | num (n : Int)
  | str (s : String)
  | arr (xs : List JsonVal)
  | obj (fs : List (String × JsonVal))

/-- Field lookup in a JSON object: Python's `'k' in data` / `data['k']`. -/
def lookupField (fs : List (String × JsonVal)) (k : String) : Option JsonVal :=
  match fs with
  | [] => none
  | f :: rest => if f.1 = k then some f.2 else lookupField rest k

/-- Python's `data.get(k, d)` on a dict. -/
def getFieldD (fs : List (String × JsonVal)) (k : String) (d : JsonVal) : JsonVal :=
  match lookupField fs k with
  | some v => v
  | none => d

/-- Whether a JSON value is an array whose elements are all strings
(the shape the spec calls "a sequence of strings"). -/
def isStringArray : JsonVal → Bool
  | JsonVal.arr xs => xs.all fun x => match x with | JsonVal.str _ => true | _ => false
  | _ => false

/-! ## ServiceClient: `AutocompleteAPIClient.get_autocomplete_suggestions`
(`src/api_client.py` lines 36-88)

The response-shape normalization of the `status == 200` branch
(lines 41-59): a bare list is returned as is; a dict yields `data['results']`,
else `data['suggestions']`, else `data['names']` (in that textual `if`/`elif`
order); a dict with none of those fields, or any other payload type, yields
`[]`. The Python return value is modelled as a `JsonVal` because the code
returns the selected field's value unvalidated, whatever it is. -/

def normalize200 (data : JsonVal) : JsonVal :=
  match data with
  | JsonVal.arr xs => JsonVal.arr xs
  | JsonVal.obj fs =>
    match lookupField fs "results" with
    | some v => v
    | none =>
      match lookupField fs "suggestions" with
      | some v => v
      | none =>
        match lookupField fs "names" with
        | some v => v
        | none => JsonVal.arr []
  | _ => JsonVal.arr []

/-- Outcome of one `self.session.get(url, params=params)` attempt:
either a response with a status code, an optional numeric `Retry-After`
header and a body (`none` when `response.json()` raises), or a
transport-level exception (timeout, connection error). -/
inductive Attempt where
  | response (status : Nat) (retryAfter : Option Nat) (body : Option JsonVal)
  | exn

/-- Loop body of `get_autocomplete_suggestions` (`for attempt in
range(max_retries + 1)`): `attempt` is the current index and `remaining`
the number of later iterations still available
(`remaining = max_retries - attempt`).  Per iteration:
a 200 with a decodable body returns its normalization; a 429 sleeps and
continues while retries remain, else returns `[]`; any other status returns
`[]` at once; an exception (including a 200 body that fails to decode,
caught by the same `except`) sleeps and continues while retries remain,
else returns `[]`.  Sleeps do not affect the returned value and are not
modelled here. -/
def clientGo (out : Nat → Attempt) : Nat → Nat → JsonVal
  | attempt, 0 =>
    match out attempt with
    | Attempt.response 200 _ (some j) => normalize200 j
    | _ => JsonVal.arr []
  | attempt, remaining + 1 =>
    match out attempt with
    | Attempt.response 200 _ (some j) => normalize200 j
    | Attempt.response 429 _ _ => clientGo out (attempt + 1) remaining
    | Attempt.response 200 _ none => clientGo out (attempt + 1) remaining
    | Attempt.response _ _ _ => JsonVal.arr []
    | Attempt.exn => clientGo out (attempt + 1) remaining

/-- The client's query operation, `get_autocomplete_suggestions(query,
version, max_retries, retry_delay)`: runs the attempt loop from attempt 0
with `maxRetries` retries available.  `out i` is the outcome of the i-th
network attempt for this query. -/
def getAutocompleteSuggestions (out : Nat → Attempt) (maxRetries : Nat) : JsonVal :=
  clientGo out 0 maxRetries

/-! ## RateLimiter (`src/utils/rate_limiter.py` lines 18-36)

`wait_if_needed` with `window_size = 60`, modelled with an injectable
integer clock: `now` is the value of `time.time()` on entry, the deque of
request timestamps is a list (front = oldest), and `time.sleep(w)` advances
the clock by exactly `w`. -/

/-- The `while self.request_timestamps and self.request_timestamps[0] <
current_time - self.window_size: popleft()` loop: drop timestamps older
than `now - 60` from the front, stopping at the first recent one. -/
def dropOld (now : Int) : List Int → List Int
  | [] => []
  | t :: rest => if t < now - 60 then dropOld now rest else t :: rest

/-- Body of `RateLimiter.wait_if_needed`: returns the time slept and the new
deque.  After dropping old timestamps, if the count has reached
`requests_per_minute` the caller sleeps `max 0 (oldest + 60 - now)`
(the code only sleeps when the computed wait is positive) and then appends
the post-sleep `time.time()`; otherwise it appends `now` immediately.
The `[]` case of the full branch is unreachable for the configured limiters
(`requests_per_minute` of 100, 50 and 80): Python would raise `IndexError`
on `self.request_timestamps[0]` there; it can only be hit with
`requests_per_minute = 0`. -/
def waitIfNeeded (r : Nat) (now : Int) (ts : List Int) : Int × List Int :=
  let kept := dropOld now ts
  if r ≤ kept.length then
    match kept with
    | [] => (0, [now])
    | t0 :: _ => (max 0 (t0 + 60 - now), kept ++ [now + max 0 (t0 + 60 - now)])
  else
    (0, kept ++ [now])

/-- One back-to-back call against the limiter: the state is
(current clock, deque); the call advances the clock by the slept time. -/
def rlStep (r : Nat) (st : Int × List Int) : Int × List Int :=
  let res := waitIfNeeded r st.1 st.2
  (st.1 + res.1, res.2)

/-! ## Checkpoint persistence (`base_extractor.py` lines 45-71)

`_save_checkpoint` opens the checkpoint file with `open(checkpoint_path,
'w')`, which truncates it in place, and then `json.dump` streams the
serialized state into it.  There is no temporary file and no rename. -/

/-- Serialize a list of strings the way `json.dump` renders a Python list
of strings. -/
def renderStrList (xs : List String) : String :=
  "[" ++ String.intercalate ", " (xs.map fun s => "\"" ++ s ++ "\"") ++ "]"

/-- Serialize the checkpoint record `{'names': ..., 'visited_prefixes':
..., 'request_count': ...}` the way `json.dump` renders it (`list(...)`
order supplied by the caller). -/
def renderCheckpoint (names visited : List String) (count : Nat) : String :=
  "\x7b\"names\": " ++ renderStrList names ++
    ", \"visited_prefixes\": " ++ renderStrList visited ++
    ", \"request_count\": " ++ toString count ++ "\x7d"

/-- Content of the checkpoint file if the process fails after `k`
characters of the new serialization have been written: `open(path, 'w')`
has already truncated the file, so the file holds the first `k` characters
of `newContent` and nothing of `prior` (the content the file held before
the save started). -/
def fileAfterInterrupt (prior newContent : String) (k : Nat) : String :=
  String.mk (newContent.toList.take k)

/-- The sequence of contents the checkpoint file passes through during
`_save_checkpoint`: the prior content, then (from the moment the file is
opened with mode 'w') every partial write, ending with the full new
content. -/
def saveCheckpointStates (prior newContent : String) : List String :=
  prior :: (List.range (newContent.length + 1)).map (fileAfterInterrupt prior newContent)

/-! ## Checkpoint loading (`base_extractor.py` lines 45-57)

`_load_checkpoint` runs, inside one `try`/`except`:
  `self.names = set(checkpoint.get('names', []))`
  `self.visited_prefixes = set(checkpoint.get('visited_prefixes', []))`
  `self.request_count = checkpoint.get('request_count', 0)`
Each assignment can raise (e.g. `set(7)` is a `TypeError`); the `except`
then leaves the fields assigned so far in place.  Python's `set()` only
admits hashable elements, which for JSON-decoded values are exactly the
scalars, modelled by `PyScalar`. -/

inductive PyScalar where
  | null
  | boolv (b : Bool)
  | num (n : Int)
  | str (s : String)
deriving DecidableEq

/-- A JSON value as a would-be set element: scalars are hashable, arrays
and objects raise `TypeError: unhashable type`. -/
def toScalar : JsonVal → Option PyScalar
  | JsonVal.null => some PyScalar.null
  | JsonVal.boolv b => some (PyScalar.boolv b)
  | JsonVal.num n => some (PyScalar.num n)
  | JsonVal.str s => some (PyScalar.str s)
  | _ => none

/-- Python's `set(x)` on a JSON-decoded value `x`: a list yields the set of
its elements (raising if one is unhashable), a string yields its characters
as one-character strings, a dict yields its keys; numbers, booleans and
`None` are not iterable and raise `TypeError`.  `none` models a raise. -/
def pySet : JsonVal → Option (Finset PyScalar)
  | JsonVal.arr xs => (xs.mapM toScalar).map List.toFinset
  | JsonVal.str s => some ((s.toList.map fun ch => PyScalar.str (String.mk [ch])).toFinset)
  | JsonVal.obj fs => some ((fs.map fun f => PyScalar.str f.1).toFinset)
  | _ => none

/-- The three state fields `_load_checkpoint` restores. -/
structure LoadState where
  names : Finset PyScalar
  visited : Finset PyScalar
  requestCount : JsonVal

/-- The state `BaseExtractor.__init__` establishes before `_load_checkpoint`
runs (lines 29-32): empty names, empty visited prefixes, request count 0. -/
def initLoadState : LoadState :=
  { names := ∅, visited := ∅, requestCount := JsonVal.num 0 }

/-- Body of `_load_checkpoint` after `json.load` has produced `j`
(the checkpoint file existed and parsed): the three assignments run in
order inside the `try`; the first raise aborts the rest, the `except`
only logs.  A non-dict `j` raises on `.get` at once (`AttributeError`),
leaving `init` untouched.  `request_count = checkpoint.get(...)` cannot
raise, so it is folded into the success branch of the second assignment. -/
def loadCheckpoint (j : JsonVal) (init : LoadState) : LoadState :=
  match j with
  | JsonVal.obj fs =>
    match pySet (getFieldD fs "names" (JsonVal.arr [])) with
    | none => init
    | some ns =>
      match pySet (getFieldD fs "visited_prefixes" (JsonVal.arr [])) with
      | none => { init with names := ns }
      | some vs =>
        { names := ns, visited := vs,
          requestCount := getFieldD fs "request_count" (JsonVal.num 0) }
  | _ => init

/-- Whether `_load_checkpoint`'s `try` block raises on checkpoint `j`
(and is caught by the `except`, logging "Failed to load checkpoint"). -/
def loadRaises (j : JsonVal) : Bool :=
  match j with
  | JsonVal.obj fs =>
    (pySet (getFieldD fs "names" (JsonVal.arr []))).isNone ||
      (pySet (getFieldD fs "visited_prefixes" (JsonVal.arr []))).isNone
  | _ => true

/-! ## PrefixCrawler: `BaseExtractor` and its DFS
(`src/extractors/base_extractor.py` lines 29-35, 88-119, 132-187)

The mutable extractor state (`self.names`, `self.visited_prefixes`,
`self.request_count`) becomes an explicit record; the API response for a
prefix is an oracle `query : String → List String`
(`get_autocomplete_suggestions` as seen through `get_suggestions`), and a
variant's `get_character_set` / `get_max_results` are plain fields. -/

structure CrawlState where
  names : Finset String
  visited : Finset String
  requestCount : Nat
deriving DecidableEq

structure Extractor where
  charset : List String
  maxResults : Nat
  query : String → List String

/-- The `v1` character set (`v1_extractor.py`): lowercase letters. -/
def v1CharacterSet : List String :=
  (List.range 26).map fun i => String.mk [Char.ofNat (97 + i)]

/-- The `v2` character set (`v2_extractor.py`): digits then lowercase letters. -/
def v2CharacterSet : List String :=
  ((List.range 10).map fun i => toString i) ++ v1CharacterSet

/-- The `v3` character set (`v3_extractor.py` lines 10-17): digits, then
lowercase letters, then `+`, `-`, `.`, then the empty string. -/
def v3CharacterSet : List String :=
  ((List.range 10).map fun i => toString i) ++ v1CharacterSet ++ ["+", "-", "."] ++ [""]

/-- Python's `'  ' in prefix` on the character list: two consecutive
spaces occur somewhere. -/
def hasTwoSpaces : List Char → Bool
  | [] => false
  | [_] => false
  | a :: b :: rest => (a == ' ' && b == ' ') || hasTwoSpaces (b :: rest)

/-- The first `_dfs` filter (line 165): `'  ' in prefix`. -/
def containsDoubleSpace (p : String) : Bool :=
  hasTwoSpaces p.toList

/-- The second `_dfs` filter (line 169): `(prefix.startswith(' ') or
prefix.endswith(' ')) and len(prefix) > 1`. -/
def badBoundarySpace (p : String) : Bool :=
  (p.toList.head? == some ' ' || p.toList.getLast? == some ' ') && decide (1 < p.length)

/-- State effect and return value of `get_suggestions(query)` (lines
88-119): issue the query, then `request_count += 1`,
`visited_prefixes.add(query)`, `names.update(response)`.  The rate-limiter
wait and the periodic checkpoint write are effects outside this state. -/
def getSuggestions (ex : Extractor) (p : String) (s : CrawlState) :
    List String × CrawlState :=
  let response := ex.query p
  (response,
    { requestCount := s.requestCount + 1,
      visited := insert p s.visited,
      names := s.names ∪ response.toFinset })

theorem getSuggestions_fst (ex : Extractor) (p : String) (s : CrawlState) :
    (getSuggestions ex p s).1 = ex.query p := rfl

theorem getSuggestions_visited (ex : Extractor) (p : String) (s : CrawlState) :
    (getSuggestions ex p s).2.visited = insert p s.visited := rfl

theorem getSuggestions_names (ex : Extractor) (p : String) (s : CrawlState) :
    (getSuggestions ex p s).2.names = s.names ∪ (ex.query p).toFinset := rfl

theorem getSuggestions_count (ex : Extractor) (p : String) (s : CrawlState) :
    (getSuggestions ex p s).2.requestCount = s.requestCount + 1 := rfl

/-! ### Finite universe of reachable prefixes

`_dfs` only ever recurses into `prefix + char` with `len(prefix + char) <=
10`, so from a given root every reachable prefix is the root or the root
extended by characters of the character set, total length at most 10.
This finite universe carries the termination measure. -/

/-- Char lists of length exactly `n` over the alphabet `A`. -/
def wordsLen (A : Finset Char) : Nat → Finset (List Char)
  | 0 => {[]}
  | n + 1 => (A ×ˢ wordsLen A n).image fun cw => cw.1 :: cw.2

/-- Char lists of length at most `n` over the alphabet `A`. -/
def wordsUpTo (A : Finset Char) (n : Nat) : Finset (List Char) :=
  (Finset.range (n + 1)).biUnion (wordsLen A)

/-- All characters occurring in the character set's strings. -/
def charsetChars (cs : List String) : Finset Char :=
  ((cs.map String.toList).join).toFinset

/-- The prefixes reachable by `_dfs` from root `p`: `p` itself and every
string of length at most 10 over the characters of the character set and
of `p`. -/
def univFor (cs : List String) (p : String) : Finset String :=
  insert p ((wordsUpTo (charsetChars cs ∪ p.toList.toFinset) 10).image String.mk)

theorem mem_wordsLen (A : Finset Char) (n : Nat) (l : List Char) :
    l ∈ wordsLen A n ↔ l.length = n ∧ ∀ c ∈ l, c ∈ A := by
  induction n generalizing l with
  | zero =>
    simp [wordsLen, List.length_eq_zero]
    rintro rfl
    simp
  | succ n ih =>
    simp only [wordsLen, Finset.mem_image, Finset.mem_product]
    constructor
    · rintro ⟨⟨c, w⟩, ⟨hc, hw⟩, rfl⟩
      obtain ⟨hlen, hmem⟩ := (ih w).1 hw
      refine ⟨by simp [hlen], ?_⟩
      intro x hx
      rcases List.mem_cons.1 hx with rfl | hx
      · exact hc
      · exact hmem x hx
    · rintro ⟨hlen, hmem⟩
      match l, hlen with
      | c :: w, hlen =>
        refine ⟨(c, w), ⟨hmem c (List.mem_cons_self c w), (ih w).2 ⟨?_, ?_⟩⟩, rfl⟩
        · simpa using hlen
        · exact fun x hx => hmem x (List.mem_cons_of_mem c hx)

theorem mem_wordsUpTo (A : Finset Char) (n : Nat) (l : List Char) :
    l ∈ wordsUpTo A n ↔ l.length ≤ n ∧ ∀ c ∈ l, c ∈ A := by
  simp only [wordsUpTo, Finset.mem_biUnion, Finset.mem_range, mem_wordsLen]
  constructor
  · rintro ⟨i, hi, rfl, hmem⟩
    exact ⟨by omega, hmem⟩
  · rintro ⟨hlen, hmem⟩
    exact ⟨l.length, by omega, rfl, hmem⟩

theorem mem_charsetChars {cs : List String} {c : String} (hc : c ∈ cs) :
    ∀ x ∈ c.toList, x ∈ charsetChars cs := by
  intro x hx
  simp only [charsetChars, List.mem_toFinset, List.mem_join]
  exact ⟨c.toList, List.mem_map_of_mem String.toList hc, hx⟩

theorem string_toList_append (a b : String) :
    (a ++ b).toList = a.toList ++ b.toList := rfl

theorem string_length_toList (a : String) : a.toList.length = a.length := rfl

theorem mem_univFor {cs : List String} {p q : String} :
    q ∈ univFor cs p ↔
      q = p ∨ (q.length ≤ 10 ∧ ∀ x ∈ q.toList, x ∈ charsetChars cs ∪ p.toList.toFinset) := by
  simp only [univFor, Finset.mem_insert, Finset.mem_image]
  constructor
  · rintro (rfl | ⟨l, hl, rfl⟩)
    · exact Or.inl rfl
    · obtain ⟨hlen, hmem⟩ := (mem_wordsUpTo _ _ _).1 hl
      exact Or.inr ⟨hlen, hmem⟩
  · rintro (rfl | ⟨hlen, hmem⟩)
    · exact Or.inl rfl
    · exact Or.inr ⟨q.toList, (mem_wordsUpTo _ _ _).2 ⟨hlen, hmem⟩, rfl⟩

theorem self_mem_univFor (cs : List String) (p : String) : p ∈ univFor cs p :=
  Finset.mem_insert_self p _

theorem univFor_closed (cs : List String) (p : String) :
    ∀ q c, q ∈ univFor cs p → c ∈ cs → (q ++ c).length ≤ 10 → q ++ c ∈ univFor cs p := by
  intro q c hq hc hlen
  refine (mem_univFor).2 (Or.inr ⟨hlen, ?_⟩)
  intro x hx
  rw [string_toList_append] at hx
  rcases List.mem_append.1 hx with hx | hx
  · rcases (mem_univFor).1 hq with rfl | ⟨_, hmem⟩
    · exact Finset.mem_union_right _ (List.mem_toFinset.2 hx)
    · exact hmem x hx
  · exact Finset.mem_union_left _ (mem_charsetChars hc x hx)

/-! ### Growth invariant and termination -/

/-- What one `_dfs` call does to the state, relative to the universe `U`
of prefixes it may touch: the visited set grows, but only inside `U`;
names grow; the request count does not decrease. -/
def Grow (U : Finset String) (s t : CrawlState) : Prop :=
  s.visited ⊆ t.visited ∧ t.visited ⊆ s.visited ∪ U ∧
    s.names ⊆ t.names ∧ s.requestCount ≤ t.requestCount

theorem grow_refl (U : Finset String) (s : CrawlState) : Grow U s s :=
  ⟨Finset.Subset.refl _, Finset.subset_union_left, Finset.Subset.refl _, Nat.le_refl _⟩

theorem grow_trans {U : Finset String} {s t u : CrawlState}
    (h1 : Grow U s t) (h2 : Grow U t u) : Grow U s u := by
  refine ⟨h1.1.trans h2.1, ?_, h1.2.2.1.trans h2.2.2.1, h1.2.2.2.trans h2.2.2.2⟩
  intro x hx
  rcases Finset.mem_union.1 (h2.2.1 hx) with hx' | hx'
  · exact h1.2.1 hx'
  · exact Finset.mem_union_right _ hx'

theorem grow_insert {U : Finset String} {p : String} (hp : p ∈ U) (s : CrawlState) :
    Grow U s { s with visited := insert p s.visited } := by
  refine ⟨Finset.subset_insert p _, ?_, Finset.Subset.refl _, Nat.le_refl _⟩
  intro x hx
  rcases Finset.mem_insert.1 hx with rfl | hx
  · exact Finset.mem_union_right _ hp
  · exact Finset.mem_union_left _ hx

theorem grow_query {U : Finset String} (ex : Extractor) {p : String} (hp : p ∈ U)
    (s : CrawlState) :
    Grow U s (getSuggestions ex p { s with visited := insert p s.visited }).2 := by
  refine ⟨?_, ?_, ?_, ?_⟩
  · rw [getSuggestions_visited]
    exact (Finset.subset_insert p _).trans (Finset.subset_insert p _)
  · rw [getSuggestions_visited]
    intro x hx
    rcases Finset.mem_insert.1 hx with rfl | hx
    · exact Finset.mem_union_right _ hp
    · rcases Finset.mem_insert.1 hx with rfl | hx
      · exact Finset.mem_union_right _ hp
      · exact Finset.mem_union_left _ hx
  · rw [getSuggestions_names]
    exact Finset.subset_union_left
  · rw [getSuggestions_count]
    exact Nat.le_succ _

theorem sdiff_card_lt_of_insert {p : String} {U V W : Finset String}
    (hp : p ∈ U) (hv : p ∉ V) (h1 : V ⊆ W) (h2 : p ∈ W) :
    (U \ W).card < (U \ V).card := by
  apply Finset.card_lt_card
  rw [Finset.ssubset_iff_of_subset (Finset.sdiff_subset_sdiff (Finset.Subset.refl U) h1)]
  exact ⟨p, Finset.mem_sdiff.2 ⟨hp, hv⟩, fun hcon => (Finset.mem_sdiff.1 hcon).2 h2⟩

mutual
/-- Embedding of `_dfs(prefix)` (`base_extractor.py` lines 152-187),
relative to a universe `U` closed under valid child extension and
containing the current prefix; the result carries its `Grow` certificate,
which is also the termination measure's justification (each query strictly
shrinks `U \ visited`).  Branch for branch: the `visited_prefixes`
membership check, marking visited, the two space filters, the
`get_suggestions` call, and the `len(suggestions) >= get_max_results()`
recursion over the character set with the `len(next_prefix) <= 10` bound. -/
def dfsAux (ex : Extractor) (U : Finset String)
    (hU : ∀ q c, q ∈ U → c ∈ ex.charset → (q ++ c).length ≤ 10 → q ++ c ∈ U)
    (p : String) (s : CrawlState) (hp : p ∈ U) :
    { t : CrawlState // Grow U s t } :=
  if hv : p ∈ s.visited then
    ⟨s, grow_refl U s⟩
  else
    if containsDoubleSpace p then
      ⟨{ s with visited := insert p s.visited }, grow_insert hp s⟩
    else if badBoundarySpace p then
      ⟨{ s with visited := insert p s.visited }, grow_insert hp s⟩
    else
      if (getSuggestions ex p { s with visited := insert p s.visited }).1.length ≥ ex.maxResults then
        match dfsKids ex U hU ex.charset (fun c hc => hc) p hp
            (getSuggestions ex p { s with visited := insert p s.visited }).2 with
        | ⟨t, ht⟩ => ⟨t, grow_trans (grow_query ex hp s) ht⟩
      else
        ⟨(getSuggestions ex p { s with visited := insert p s.visited }).2, grow_query ex hp s⟩
termination_by ((U \ s.visited).card, 0)
decreasing_by
  simp_wf
  apply Prod.Lex.left
  rw [getSuggestions_visited]
  exact sdiff_card_lt_of_insert hp hv
    ((Finset.subset_insert p _).trans (Finset.subset_insert p _))
    (Finset.mem_insert_self p _)

/-- The `for char in self.get_character_set(): ... self._dfs(next_prefix)`
loop of `_dfs` (lines 179-183), running over the remaining character-set
suffix `cs` and threading the state left to right. -/
def dfsKids (ex : Extractor) (U : Finset String)
    (hU : ∀ q c, q ∈ U → c ∈ ex.charset → (q ++ c).length ≤ 10 → q ++ c ∈ U)
    (cs : List String) (hcs : ∀ c ∈ cs, c ∈ ex.charset)
    (p : String) (hp : p ∈ U) (s : CrawlState) :
    { t : CrawlState // Grow U s t } :=
  match cs with
  | [] => ⟨s, grow_refl U s⟩
  | c :: rest =>
    if hlen : (p ++ c).length ≤ 10 then
      match dfsAux ex U hU (p ++ c) s (hU p c hp (hcs c (List.mem_cons_self c rest)) hlen) with
      | ⟨t1, h1⟩ =>
        match dfsKids ex U hU rest (fun x hx => hcs x (List.mem_cons_of_mem c hx)) p hp t1 with
        | ⟨t2, h2⟩ => ⟨t2, grow_trans h1 h2⟩
    else
      dfsKids ex U hU rest (fun x hx => hcs x (List.mem_cons_of_mem c hx)) p hp s
termination_by ((U \ s.visited).card, cs.length)
decreasing_by
  · simp_wf
    exact Prod.Lex.right _ (Nat.succ_pos _)
  · simp_wf
    rcases lt_or_eq_of_le (Finset.card_le_card
        (Finset.sdiff_subset_sdiff (Finset.Subset.refl U) h1.1)) with h | h
    · exact Prod.Lex.left _ _ h
    · rw [h]
      exact Prod.Lex.right _ (Nat.lt_succ_self _)
  · simp_wf
    exact Prod.Lex.right _ (Nat.lt_succ_self _)
end

/-- The traversal entry point `_dfs(prefix)` on the crawl state, with the
universe instantiated at the canonical one for the root prefix. -/
def dfsRun (ex : Extractor) (p : String) (s : CrawlState) : CrawlState :=
  (dfsAux ex (univFor ex.charset p) (univFor_closed ex.charset p) p s
    (self_mem_univFor ex.charset p)).val

/-- One iteration of the `extract_names` top-level loop (lines 138-140):
`if char not in self.visited_prefixes: self._dfs(char)`. -/
def extractStep (ex : Extractor) (st : CrawlState) (c : String) : CrawlState :=
  if c ∈ st.visited then st else dfsRun ex c st

/-- The `extract_names` driver (lines 132-144): for every character of the
character set, in order, run `_dfs(char)` unless the character is already
a visited prefix.  The final checkpoint/results writes are file effects
outside the state. -/
def extractNames (ex : Extractor) (s : CrawlState) : CrawlState :=
  ex.charset.foldl (extractStep ex) s

/-! ### Unfolding lemmas for the traversal -/

theorem dfsAux_visited (ex : Extractor) (U : Finset String)
    (hU : ∀ q c, q ∈ U → c ∈ ex.charset → (q ++ c).length ≤ 10 → q ++ c ∈ U)
    (p : String) (s : CrawlState) (hp : p ∈ U) (hv : p ∈ s.visited) :
    (dfsAux ex U hU p s hp).val = s := by
  rw [dfsAux]
  simp [hv]

theorem dfsAux_reject (ex : Extractor) (U : Finset String)
    (hU : ∀ q c, q ∈ U → c ∈ ex.charset → (q ++ c).length ≤ 10 → q ++ c ∈ U)
    (p : String) (s : CrawlState) (hp : p ∈ U) (hv : p ∉ s.visited)
    (hrej : containsDoubleSpace p = true ∨ badBoundarySpace p = true) :
    (dfsAux ex U hU p s hp).val = { s with visited := insert p s.visited } := by
  rw [dfsAux]
  rcases hrej with h | h <;> simp [hv, h]

theorem dfsAux_noBranch (ex : Extractor) (U : Finset String)
    (hU : ∀ q c, q ∈ U → c ∈ ex.charset → (q ++ c).length ≤ 10 → q ++ c ∈ U)
    (p : String) (s : CrawlState) (hp : p ∈ U) (hv : p ∉ s.visited)
    (h2 : containsDoubleSpace p = false) (h3 : badBoundarySpace p = false)
    (h4 : (ex.query p).length < ex.maxResults) :
    (dfsAux ex U hU p s hp).val =
      (getSuggestions ex p { s with visited := insert p s.visited }).2 := by
  rw [dfsAux]
  simp [hv, h2, h3, getSuggestions_fst, Nat.not_le.2 h4]

theorem dfsAux_branch (ex : Extractor) (U : Finset String)
    (hU : ∀ q c, q ∈ U → c ∈ ex.charset → (q ++ c).length ≤ 10 → q ++ c ∈ U)
    (p : String) (s : CrawlState) (hp : p ∈ U) (hv : p ∉ s.visited)
    (h2 : containsDoubleSpace p = false) (h3 : badBoundarySpace p = false)
    (h4 : ex.maxResults ≤ (ex.query p).length) :
    (dfsAux ex U hU p s hp).val =
      (dfsKids ex U hU ex.charset (fun c hc => hc) p hp
        (getSuggestions ex p { s with visited := insert p s.visited }).2).val := by
  rw [dfsAux]
  simp only [hv, h2, h3, getSuggestions_fst, dite_false, if_false, Bool.false_eq_true,
    ite_false, ge_iff_le, h4, ite_true, if_true, dite_eq_ite]

theorem dfsKids_nil (ex : Extractor) (U : Finset String)
    (hU : ∀ q c, q ∈ U → c ∈ ex.charset → (q ++ c).length ≤ 10 → q ++ c ∈ U)
    (hcs : ∀ c ∈ ([] : List String), c ∈ ex.charset)
    (p : String) (hp : p ∈ U) (s : CrawlState) :
    (dfsKids ex U hU [] hcs p hp s).val = s := by
  rw [dfsKids]

theorem dfsKids_cons_le (ex : Extractor) (U : Finset String)
    (hU : ∀ q c, q ∈ U → c ∈ ex.charset → (q ++ c).length ≤ 10 → q ++ c ∈ U)
    (c : String) (rest : List String) (hcs : ∀ x ∈ c :: rest, x ∈ ex.charset)
    (p : String) (hp : p ∈ U) (s : CrawlState) (hlen : (p ++ c).length ≤ 10) :
    (dfsKids ex U hU (c :: rest) hcs p hp s).val =
      (dfsKids ex U hU rest (fun x hx => hcs x (List.mem_cons_of_mem c hx)) p hp
        (dfsAux ex U hU (p ++ c) s
          (hU p c hp (hcs c (List.mem_cons_self c rest)) hlen)).val).val := by
  rw [dfsKids]
  simp only [hlen, dite_true, dif_pos]

theorem dfsKids_cons_gt (ex : Extractor) (U : Finset String)
    (hU : ∀ q c, q ∈ U → c ∈ ex.charset → (q ++ c).length ≤ 10 → q ++ c ∈ U)
    (c : String) (rest : List String) (hcs : ∀ x ∈ c :: rest, x ∈ ex.charset)
    (p : String) (hp : p ∈ U) (s : CrawlState) (hlen : ¬ (p ++ c).length ≤ 10) :
    (dfsKids ex U hU (c :: rest) hcs p hp s).val =
      (dfsKids ex U hU rest (fun x hx => hcs x (List.mem_cons_of_mem c hx)) p hp s).val := by
  rw [dfsKids]
  rw [String.length_append] at hlen
  simp [hlen]

/-! ### Derived traversal lemmas -/

theorem dfsAux_self_mem (ex : Extractor) (U : Finset String)
    (hU : ∀ q c, q ∈ U → c ∈ ex.charset → (q ++ c).length ≤ 10 → q ++ c ∈ U)
    (p : String) (s : CrawlState) (hp : p ∈ U) :
    p ∈ (dfsAux ex U hU p s hp).val.visited := by
  by_cases hv : p ∈ s.visited
  · rw [dfsAux_visited ex U hU p s hp hv]
    exact hv
  · cases hd : containsDoubleSpace p with
    | true =>
      rw [dfsAux_reject ex U hU p s hp hv (Or.inl hd)]
      exact Finset.mem_insert_self p _
    | false =>
      cases hb : badBoundarySpace p with
      | true =>
        rw [dfsAux_reject ex U hU p s hp hv (Or.inr hb)]
        exact Finset.mem_insert_self p _
      | false =>
        rcases Nat.lt_or_ge (ex.query p).length ex.maxResults with h4 | h4
        · rw [dfsAux_noBranch ex U hU p s hp hv hd hb h4, getSuggestions_visited]
          exact Finset.mem_insert_self p _
        · rw [dfsAux_branch ex U hU p s hp hv hd hb h4]
          apply (dfsKids ex U hU ex.charset (fun c hc => hc) p hp
            (getSuggestions ex p { s with visited := insert p s.visited }).2).prop.1
          rw [getSuggestions_visited]
          exact Finset.mem_insert_self p _

theorem dfsKids_child_mem (ex : Extractor) (U : Finset String)
    (hU : ∀ q c, q ∈ U → c ∈ ex.charset → (q ++ c).length ≤ 10 → q ++ c ∈ U)
    (p : String) (hp : p ∈ U) :
    ∀ (cs : List String) (hcs : ∀ c ∈ cs, c ∈ ex.charset) (s : CrawlState) (x : String),
      x ∈ cs → (p ++ x).length ≤ 10 →
      p ++ x ∈ (dfsKids ex U hU cs hcs p hp s).val.visited := by
  intro cs
  induction cs with
  | nil =>
    intro hcs s x hx
    exact absurd hx (List.not_mem_nil x)
  | cons c rest ih =>
    intro hcs s x hx hxlen
    rcases List.mem_cons.1 hx with rfl | hx
    · rw [dfsKids_cons_le ex U hU x rest hcs p hp s hxlen]
      exact (dfsKids ex U hU rest (fun y hy => hcs y (List.mem_cons_of_mem x hy)) p hp
        (dfsAux ex U hU (p ++ x) s
          (hU p x hp (hcs x (List.mem_cons_self x rest)) hxlen)).val).prop.1
        (dfsAux_self_mem ex U hU (p ++ x) s _)
    · by_cases hlen : (p ++ c).length ≤ 10
      · rw [dfsKids_cons_le ex U hU c rest hcs p hp s hlen]
        exact ih _ _ x hx hxlen
      · rw [dfsKids_cons_gt ex U hU c rest hcs p hp s hlen]
        exact ih _ _ x hx hxlen

theorem dfsRun_grow (ex : Extractor) (p : String) (s : CrawlState) :
    Grow (univFor ex.charset p) s (dfsRun ex p s) :=
  (dfsAux ex (univFor ex.charset p) (univFor_closed ex.charset p) p s
    (self_mem_univFor ex.charset p)).prop

theorem univFor_subset_of_mem {cs : List String} {c : String}
    (hc : c ∈ cs) (hlen : c.length ≤ 10) :
    univFor cs c ⊆ (wordsUpTo (charsetChars cs) 10).image String.mk := by
  have hchars : c.toList.toFinset ⊆ charsetChars cs := by
    intro x hx
    exact mem_charsetChars hc x (List.mem_toFinset.1 hx)
  intro q hq
  rcases mem_univFor.1 hq with rfl | ⟨hqlen, hqmem⟩
  · exact Finset.mem_image.2 ⟨q.toList,
      (mem_wordsUpTo _ _ _).2 ⟨by rw [string_length_toList]; exact hlen,
        fun x hx => mem_charsetChars hc x hx⟩, rfl⟩
  · refine Finset.mem_image.2 ⟨q.toList,
      (mem_wordsUpTo _ _ _).2 ⟨by rw [string_length_toList]; exact hqlen, ?_⟩, rfl⟩
    intro x hx
    rcases Finset.mem_union.1 (hqmem x hx) with h | h
    · exact h
    · exact hchars h

theorem extract_go_mono (ex : Extractor) :
    ∀ (cs : List String) (s : CrawlState),
      s.names ⊆ (cs.foldl (extractStep ex) s).names ∧
      s.visited ⊆ (cs.foldl (extractStep ex) s).visited ∧
      s.requestCount ≤ (cs.foldl (extractStep ex) s).requestCount := by
  intro cs
  induction cs with
  | nil =>
    intro s
    exact ⟨Finset.Subset.refl _, Finset.Subset.refl _, Nat.le_refl _⟩
  | cons c rest ih =>
    intro s
    have hstep : s.names ⊆ (extractStep ex s c).names ∧
        s.visited ⊆ (extractStep ex s c).visited ∧
        s.requestCount ≤ (extractStep ex s c).requestCount := by
      unfold extractStep
      by_cases hmem : c ∈ s.visited
      · simp [hmem]
      · simp only [hmem, if_false, ite_false]
        exact ⟨(dfsRun_grow ex c s).2.2.1, (dfsRun_grow ex c s).1, (dfsRun_grow ex c s).2.2.2⟩
    have hrest := ih (extractStep ex s c)
    rw [List.foldl_cons]
    exact ⟨hstep.1.trans hrest.1, hstep.2.1.trans hrest.2.1, hstep.2.2.trans hrest.2.2⟩

theorem extract_go_visited_sub (ex : Extractor)
    (hone : ∀ c ∈ ex.charset, c.length ≤ 1) :
    ∀ (cs : List String), (∀ c ∈ cs, c ∈ ex.charset) →
      ∀ s : CrawlState,
      (cs.foldl (extractStep ex) s).visited ⊆
        s.visited ∪ (wordsUpTo (charsetChars ex.charset) 10).image String.mk := by
  intro cs
  induction cs with
  | nil =>
    intro _ s
    exact Finset.subset_union_left
  | cons c rest ih =>
    intro hcs s
    rw [List.foldl_cons]
    have hstep : (extractStep ex s c).visited ⊆
        s.visited ∪ (wordsUpTo (charsetChars ex.charset) 10).image String.mk := by
      unfold extractStep
      by_cases hmem : c ∈ s.visited
      · simp only [hmem, if_true, ite_true]
        exact Finset.subset_union_left
      · simp only [hmem, if_false, ite_false]
        refine ((dfsRun_grow ex c s).2.1).trans ?_
        apply Finset.union_subset_union (Finset.Subset.refl _)
        exact univFor_subset_of_mem (hcs c (List.mem_cons_self c rest))
          (Nat.le_trans (hone c (hcs c (List.mem_cons_self c rest))) (by omega))
    refine (ih (fun x hx => hcs x (List.mem_cons_of_mem c hx)) (extractStep ex s c)).trans ?_
    intro x hx
    rcases Finset.mem_union.1 hx with hx | hx
    · exact hstep hx
    · exact Finset.mem_union_right _ hx

/-! ## Claim theorems: traversal -/

/-- Claim C1: for every prefix actually queried during traversal (not yet
visited, passing both space filters), if the returned count reaches the
variant's `maxResults` then `_dfs` recurses depth-first into `prefix + c`
for every character `c` of the character set whose extension keeps the
length within 10 — each such child therefore ends up visited; if the
returned count is strictly below `maxResults`, no children are explored:
the final state is exactly the post-query state, with only `prefix` newly
visited. -/
theorem dfs_truncation_branching_C1 (ex : Extractor) (p : String) (s : CrawlState)
    (hv : p ∉ s.visited)
    (h2 : containsDoubleSpace p = false) (h3 : badBoundarySpace p = false) :
    (ex.maxResults ≤ (ex.query p).length →
      ∀ c ∈ ex.charset, (p ++ c).length ≤ 10 → p ++ c ∈ (dfsRun ex p s).visited) ∧
    ((ex.query p).length < ex.maxResults →
      dfsRun ex p s =
        { names := s.names ∪ (ex.query p).toFinset,
          visited := insert p s.visited,
          requestCount := s.requestCount + 1 }) := by
  constructor
  · intro h4 c hc hlen
    unfold dfsRun
    rw [dfsAux_branch ex (univFor ex.charset p) (univFor_closed ex.charset p) p s
      (self_mem_univFor ex.charset p) hv h2 h3 h4]
    exact dfsKids_child_mem ex (univFor ex.charset p) (univFor_closed ex.charset p) p
      (self_mem_univFor ex.charset p) ex.charset (fun x hx => hx) _ c hc hlen
  · intro h4
    unfold dfsRun
    rw [dfsAux_noBranch ex (univFor ex.charset p) (univFor_closed ex.charset p) p s
      (self_mem_univFor ex.charset p) hv h2 h3 h4]
    simp [getSuggestions, Finset.insert_idem]

/-- Witness for C1, at concrete inputs: with character set `["a"]` and
`maxResults 0` (every reply is "full"), querying the fresh prefix `"b"`
explores the child `"ba"`; with `maxResults 5` and empty replies, querying
`"b"` adds no children: the state is exactly the post-query one. -/
theorem dfs_truncation_branching_C1_witness :
    ("b" ++ "a") ∈ (dfsRun ⟨["a"], 0, fun _ => []⟩ "b" ⟨∅, ∅, 0⟩).visited ∧
    dfsRun ⟨["a"], 5, fun _ => []⟩ "b" ⟨∅, ∅, 0⟩ =
      { names := (∅ : Finset String) ∪ ([] : List String).toFinset,
        visited := insert "b" ∅, requestCount := 0 + 1 } :=
  ⟨(dfs_truncation_branching_C1 ⟨["a"], 0, fun _ => []⟩ "b" ⟨∅, ∅, 0⟩ (by decide)
      (by decide) (by decide)).1 (by decide) "a" (by decide) (by decide),
    (dfs_truncation_branching_C1 ⟨["a"], 5, fun _ => []⟩ "b" ⟨∅, ∅, 0⟩ (by decide)
      (by decide) (by decide)).2 (by decide)⟩

/-- Claim C3: before querying, a not-yet-visited prefix that contains two
consecutive spaces, or has a leading/trailing space with length above 1,
is rejected: it is recorded in `visited_prefixes` but the query is never
issued, no names are added and no children enqueued (the state changes by
exactly that one insertion).  A prefix passing both filters is queried
(the request count strictly increases), which covers the single-space
prefix `" "`. -/
theorem dfs_space_filters_C3 (ex : Extractor) (p : String) (s : CrawlState)
    (hv : p ∉ s.visited) :
    ((containsDoubleSpace p = true ∨ badBoundarySpace p = true) →
      dfsRun ex p s = { s with visited := insert p s.visited }) ∧
    (containsDoubleSpace p = false → badBoundarySpace p = false →
      s.requestCount + 1 ≤ (dfsRun ex p s).requestCount) := by
  constructor
  · intro hrej
    unfold dfsRun
    exact dfsAux_reject ex (univFor ex.charset p) (univFor_closed ex.charset p) p s
      (self_mem_univFor ex.charset p) hv hrej
  · intro h2 h3
    unfold dfsRun
    rcases Nat.lt_or_ge (ex.query p).length ex.maxResults with h4 | h4
    · rw [dfsAux_noBranch ex (univFor ex.charset p) (univFor_closed ex.charset p) p s
        (self_mem_univFor ex.charset p) hv h2 h3 h4, getSuggestions_count]
    · rw [dfsAux_branch ex (univFor ex.charset p) (univFor_closed ex.charset p) p s
        (self_mem_univFor ex.charset p) hv h2 h3 h4]
      have := (dfsKids ex (univFor ex.charset p) (univFor_closed ex.charset p) ex.charset
        (fun c hc => hc) p (self_mem_univFor ex.charset p)
        (getSuggestions ex p { s with visited := insert p s.visited }).2).prop.2.2.2
      rw [getSuggestions_count] at this
      exact this

/-- Witness for C3, at the spec's own concrete inputs: `"ab  c"` (double
space) and `" a"` (leading space, length 2) are marked visited but never
queried; `" "` (single space) is queried. -/
theorem dfs_space_filters_C3_witness :
    dfsRun ⟨["a"], 5, fun _ => []⟩ "ab  c" ⟨∅, ∅, 0⟩ =
      { names := ∅, visited := insert "ab  c" ∅, requestCount := 0 } ∧
    dfsRun ⟨["a"], 5, fun _ => []⟩ " a" ⟨∅, ∅, 0⟩ =
      { names := ∅, visited := insert " a" ∅, requestCount := 0 } ∧
    0 + 1 ≤ (dfsRun ⟨["a"], 5, fun _ => []⟩ " " ⟨∅, ∅, 0⟩).requestCount :=
  ⟨(dfs_space_filters_C3 ⟨["a"], 5, fun _ => []⟩ "ab  c" ⟨∅, ∅, 0⟩ (by decide)).1
      (Or.inl (by decide)),
    (dfs_space_filters_C3 ⟨["a"], 5, fun _ => []⟩ " a" ⟨∅, ∅, 0⟩ (by decide)).1
      (Or.inr (by decide)),
    (dfs_space_filters_C3 ⟨["a"], 5, fun _ => []⟩ " " ⟨∅, ∅, 0⟩ (by decide)).2
      (by decide) (by decide)⟩

/-- Claim C7: invoking the traversal entry point `_dfs` on a prefix
already contained in `visited_prefixes` is a no-op — the state is returned
unchanged, so no query is issued (the request count cannot change) and a
visited prefix is never re-queried. -/
theorem dfs_idempotent_C7 (ex : Extractor) (p : String) (s : CrawlState)
    (hv : p ∈ s.visited) : dfsRun ex p s = s :=
  dfsAux_visited ex (univFor ex.charset p) (univFor_closed ex.charset p) p s
    (self_mem_univFor ex.charset p) hv

/-- Witness for C7 at a concrete input: re-running `_dfs "a"` on a state
that already visited `"a"` changes nothing. -/
theorem dfs_idempotent_C7_witness :
    dfsRun ⟨["a"], 5, fun _ => ["x"]⟩ "a" ⟨∅, {"a"}, 3⟩ = ⟨∅, {"a"}, 3⟩ :=
  dfs_idempotent_C7 ⟨["a"], 5, fun _ => ["x"]⟩ "a" ⟨∅, {"a"}, 3⟩ (by decide)

/-- Claim C6: across the crawl's operations — a single `get_suggestions`
query, a `_dfs` traversal, and a whole `extract_names` run —
`names` (discovered names) and `visited_prefixes` only grow (the resulting
sets include the prior ones) and `request_count` never decreases. -/
theorem state_monotone_C6 (ex : Extractor) (p : String) (s : CrawlState) :
    (s.names ⊆ (getSuggestions ex p s).2.names ∧
      s.visited ⊆ (getSuggestions ex p s).2.visited ∧
      s.requestCount ≤ (getSuggestions ex p s).2.requestCount) ∧
    (s.names ⊆ (dfsRun ex p s).names ∧
      s.visited ⊆ (dfsRun ex p s).visited ∧
      s.requestCount ≤ (dfsRun ex p s).requestCount) ∧
    (s.names ⊆ (extractNames ex s).names ∧
      s.visited ⊆ (extractNames ex s).visited ∧
      s.requestCount ≤ (extractNames ex s).requestCount) := by
  refine ⟨⟨?_, ?_, ?_⟩, ⟨(dfsRun_grow ex p s).2.2.1, (dfsRun_grow ex p s).1,
    (dfsRun_grow ex p s).2.2.2⟩, extract_go_mono ex ex.charset s⟩
  · rw [getSuggestions_names]
    exact Finset.subset_union_left
  · rw [getSuggestions_visited]
    exact Finset.subset_insert p _
  · rw [getSuggestions_count]
    exact Nat.le_succ _

/-! ## Claim C5: termination and state-space bound -/

theorem card_wordsLen (A : Finset Char) (n : Nat) : (wordsLen A n).card ≤ A.card ^ n := by
  induction n with
  | zero => simp [wordsLen]
  | succ n ih =>
    calc (wordsLen A (n + 1)).card
        ≤ (A ×ˢ wordsLen A n).card := Finset.card_image_le
      _ = A.card * (wordsLen A n).card := Finset.card_product _ _
      _ ≤ A.card * A.card ^ n := Nat.mul_le_mul_left _ ih
      _ = A.card ^ (n + 1) := by rw [pow_succ, Nat.mul_comm]

theorem card_wordsUpTo (A : Finset Char) {k : Nat} (hA : A.card ≤ k) (hk : 1 ≤ k) :
    (wordsUpTo A 10).card ≤ 11 * k ^ 10 := by
  calc (wordsUpTo A 10).card
      ≤ ∑ i ∈ Finset.range 11, (wordsLen A i).card := Finset.card_biUnion_le
    _ ≤ ∑ _i ∈ Finset.range 11, k ^ 10 := by
        apply Finset.sum_le_sum
        intro i hi
        refine (card_wordsLen A i).trans ?_
        refine (Nat.pow_le_pow_left hA i).trans ?_
        exact Nat.pow_le_pow_right hk (Nat.lt_succ_iff.1 (Finset.mem_range.1 hi))
    _ = 11 * k ^ 10 := by simp [Finset.sum_const, smul_eq_mul]

theorem charsetChars_card_le (cs : List String) (hone : ∀ c ∈ cs, c.length ≤ 1) :
    (charsetChars cs).card ≤ cs.length := by
  unfold charsetChars
  refine (List.toFinset_card_le _).trans ?_
  rw [List.length_join]
  have hbound : ∀ x ∈ (cs.map String.toList).map List.length, x ≤ 1 := by
    intro x hx
    rcases List.mem_map.1 hx with ⟨l, hl, rfl⟩
    rcases List.mem_map.1 hl with ⟨c, hc, rfl⟩
    rw [string_length_toList]
    exact hone c hc
  refine (List.sum_le_card_nsmul _ 1 hbound).trans ?_
  simp

/-- Claim C5: the depth-first traversal terminates for every starting
state — witnessed by `dfsAux`/`extractNames` being total functions, defined
by the well-founded measure `|U \ visited|` over the finite universe of
reachable prefixes — and, for a variant whose character set has `k`
entries of at most one character each (this admits the empty string, as in
the `v3` character set) and the hard-coded maximum prefix length 10, a
whole `extract_names` run visits at most `11 * k ^ 10` new prefixes, i.e.
`O(k ^ m)` with `m = 10`. -/
theorem extract_terminates_bounded_C5 (ex : Extractor) (s : CrawlState)
    (hone : ∀ c ∈ ex.charset, c.length ≤ 1) (hk : 1 ≤ ex.charset.length) :
    (extractNames ex s).visited.card ≤ s.visited.card + 11 * ex.charset.length ^ 10 := by
  have hsub := extract_go_visited_sub ex hone ex.charset (fun c hc => hc) s
  refine (Finset.card_le_card hsub).trans ?_
  refine (Finset.card_union_le _ _).trans ?_
  refine Nat.add_le_add_left ?_ _
  refine (Finset.card_image_le).trans ?_
  exact card_wordsUpTo _ (charsetChars_card_le _ hone) hk

/-- Witness for C5 at the real `v3` character set (which contains the
empty string as a member) and `maxResults 15`. -/
theorem extract_terminates_bounded_C5_witness :
    ("" ∈ v3CharacterSet ∧ ∀ c ∈ v3CharacterSet, c.length ≤ 1) ∧
    (extractNames ⟨v3CharacterSet, 15, fun _ => []⟩ ⟨∅, ∅, 0⟩).visited.card ≤
      (⟨∅, ∅, 0⟩ : CrawlState).visited.card + 11 * v3CharacterSet.length ^ 10 :=
  ⟨⟨by decide, by decide⟩,
    extract_terminates_bounded_C5 ⟨v3CharacterSet, 15, fun _ => []⟩ ⟨∅, ∅, 0⟩
      (by decide) (by decide)⟩

/-! ## Claim C2: checkpoint writes are not atomic -/

/-- Counterexample to claim C2 at a concrete input: during a
`_save_checkpoint` that should replace a prior two-name checkpoint, the
file content after one written character is `"\x7b"` — neither the prior
checkpoint (which `open(path, 'w')` already truncated away) nor the new
one.  An interrupted periodic checkpoint write therefore corrupts the
prior checkpoint: there is no temporary location and no atomic replace. -/
theorem checkpoint_write_C2_counterexample :
    fileAfterInterrupt (renderCheckpoint ["cat", "car"] ["c", "ca"] 2)
        (renderCheckpoint ["cat", "car", "cab"] ["c", "ca", "cab"] 3) 1 = "\x7b" ∧
    fileAfterInterrupt (renderCheckpoint ["cat", "car"] ["c", "ca"] 2)
        (renderCheckpoint ["cat", "car", "cab"] ["c", "ca", "cab"] 3) 1 ≠
      renderCheckpoint ["cat", "car"] ["c", "ca"] 2 ∧
    fileAfterInterrupt (renderCheckpoint ["cat", "car"] ["c", "ca"] 2)
        (renderCheckpoint ["cat", "car", "cab"] ["c", "ca", "cab"] 3) 1 ≠
      renderCheckpoint ["cat", "car", "cab"] ["c", "ca", "cab"] 3 := by
  refine ⟨by decide, by decide, by decide⟩

/-- Claim C2 (amended): `_save_checkpoint` writes the new serialization
directly to the checkpoint path — the file passes from the prior content
through truncation and every partial write to the full new content — so a
completed save does replace the checkpoint, but any non-empty prior
checkpoint is already corrupted at the moment of truncation (interruption
point 0 leaves a file differing from the prior content).  Restart safety
relies on `_load_checkpoint` falling back to the empty state when the
leftover partial file fails to parse, not on preserving the prior
checkpoint. -/
theorem checkpoint_write_C2_amended (prior newContent : String) (hp : prior ≠ "") :
    (saveCheckpointStates prior newContent).head? = some prior ∧
    fileAfterInterrupt prior newContent newContent.length = newContent ∧
    fileAfterInterrupt prior newContent 0 ≠ prior := by
  refine ⟨rfl, ?_, ?_⟩
  · show String.mk (newContent.toList.take newContent.length) = newContent
    rw [← string_length_toList, List.take_length]
    rfl
  · show ("" : String) ≠ prior
    exact fun h => hp h.symm

/-- Witness for the amended C2 at a concrete prior checkpoint. -/
theorem checkpoint_write_C2_amended_witness :
    (saveCheckpointStates (renderCheckpoint ["cat"] ["c"] 1)
        (renderCheckpoint [] [] 0)).head? = some (renderCheckpoint ["cat"] ["c"] 1) ∧
    fileAfterInterrupt (renderCheckpoint ["cat"] ["c"] 1) (renderCheckpoint [] [] 0)
        (renderCheckpoint [] [] 0).length = renderCheckpoint [] [] 0 ∧
    fileAfterInterrupt (renderCheckpoint ["cat"] ["c"] 1) (renderCheckpoint [] [] 0) 0 ≠
      renderCheckpoint ["cat"] ["c"] 1 :=
  checkpoint_write_C2_amended (renderCheckpoint ["cat"] ["c"] 1) (renderCheckpoint [] [] 0)
    (by decide)

/-! ## Claim C4: the client degrades failures to empty, but does not
validate the selected payload value -/

/-- Whether an attempt outcome sends `get_autocomplete_suggestions` into
another loop iteration: a transport exception, a 429, or a 200 whose body
fails to decode. -/
def retryableAttempt : Attempt → Bool
  | Attempt.exn => true
  | Attempt.response 429 _ _ => true
  | Attempt.response 200 _ none => true
  | _ => false

theorem clientGo_all_retryable (out : Nat → Attempt)
    (hall : ∀ i, retryableAttempt (out i) = true) :
    ∀ remaining attempt, clientGo out attempt remaining = JsonVal.arr [] := by
  intro remaining
  induction remaining with
  | zero =>
    intro attempt
    unfold clientGo
    split
    · rename_i ra j heq
      have hr := hall attempt
      rw [heq] at hr
      simp [retryableAttempt] at hr
    · rfl
  | succ n ih =>
    intro attempt
    unfold clientGo
    split
    · rename_i ra j heq
      have hr := hall attempt
      rw [heq] at hr
      simp [retryableAttempt] at hr
    · exact ih (attempt + 1)
    · exact ih (attempt + 1)
    · rfl
    · exact ih (attempt + 1)

/-- Claim C4 (amended): for every query, `get_autocomplete_suggestions`
never raises to the caller (it is a total function here), and the failure
modes all degrade to the empty list: every attempt retryable (transport
exceptions, 429s, undecodable 200 bodies) until the budget is exhausted; a
first response with any non-200, non-429 status; a 200 whose JSON object
carries none of `results`/`suggestions`/`names`; a 200 with a scalar
payload.  However a 200 response is returned as `normalize200` of its
payload, which passes a recognized field's value through unvalidated —
it need not be a sequence of strings. -/
theorem client_degrades_C4 (out : Nat → Attempt) (mr : Nat) :
    ((∀ i, retryableAttempt (out i) = true) →
      getAutocompleteSuggestions out mr = JsonVal.arr []) ∧
    (∀ st ra b, out 0 = Attempt.response st ra b → st ≠ 200 → st ≠ 429 →
      getAutocompleteSuggestions out mr = JsonVal.arr []) ∧
    (∀ ra j, out 0 = Attempt.response 200 ra (some j) →
      getAutocompleteSuggestions out mr = normalize200 j) ∧
    (∀ fs, lookupField fs "results" = none → lookupField fs "suggestions" = none →
      lookupField fs "names" = none → normalize200 (JsonVal.obj fs) = JsonVal.arr []) ∧
    (∀ n : Int, normalize200 (JsonVal.num n) = JsonVal.arr []) := by
  refine ⟨fun hall => clientGo_all_retryable out hall mr 0, ?_, ?_, ?_, fun n => rfl⟩
  · intro st ra b hout h200 h429
    unfold getAutocompleteSuggestions
    cases mr with
    | zero =>
      unfold clientGo
      rw [hout]
      split
      · rename_i ra' j heq
        exact absurd (by injection heq) h200
      · rfl
    | succ n =>
      unfold clientGo
      rw [hout]
      split
      · rename_i ra' j heq
        exact absurd (by injection heq) h200
      · rename_i ra' b' heq
        exact absurd (by injection heq) h429
      · rename_i ra' heq
        exact absurd (by injection heq) h200
      · rfl
      · rename_i heq
        exact absurd heq (by simp)
  · intro ra j hout
    unfold getAutocompleteSuggestions
    cases mr with
    | zero =>
      unfold clientGo
      rw [hout]
    | succ n =>
      unfold clientGo
      rw [hout]
  · intro fs h1 h2 h3
    simp [normalize200, h1, h2, h3]

/-- Witness for the amended C4: a permanent 500 yields the empty list at
once; permanent transport exceptions exhaust the budget and yield the
empty list. -/
theorem client_degrades_C4_witness :
    getAutocompleteSuggestions (fun _ => Attempt.response 500 none none) 3 = JsonVal.arr [] ∧
    getAutocompleteSuggestions (fun _ => Attempt.exn) 2 = JsonVal.arr [] :=
  ⟨(client_degrades_C4 (fun _ => Attempt.response 500 none none) 3).2.1 500 none none rfl
      (by decide) (by decide),
    (client_degrades_C4 (fun _ => Attempt.exn) 2).1 (fun _ => rfl)⟩

/-- Counterexample to claim C4 as stated, at a concrete input: a 200
response whose payload is the object with field `results` holding the
number 3 makes the client return `3` — not a sequence of strings, and not
the empty sequence — because `return data['results']` performs no
validation. -/
theorem client_degrades_C4_counterexample :
    getAutocompleteSuggestions
        (fun _ => Attempt.response 200 none
          (some (JsonVal.obj [("results", JsonVal.num 3)]))) 3 = JsonVal.num 3 ∧
    isStringArray (JsonVal.num 3) = false ∧
    JsonVal.num 3 ≠ JsonVal.arr [] :=
  ⟨rfl, rfl, fun h => JsonVal.noConfusion h⟩

/-! ## Claim C8: sliding-window rate limiter -/

/-- Claim C8: with a limiter configured for 2 requests per rolling
60-second window, three back-to-back `wait_if_needed` calls starting at
clock 0 leave the third call sleeping 60 seconds, returning at clock 60 —
at least 60 seconds after the first call's recorded timestamp 0.  In
general a call first drops the timestamps older than `now - 60` from the
front of the deque (they form a prefix, every dropped entry older than the
cutoff); if at least `R ≥ 1` timestamps remain it suspends for
`max 0 (oldest + 60 - now)` and records the post-suspend time, otherwise
it records `now` immediately. -/
theorem rate_limiter_window_C8 :
    (rlStep 2 (rlStep 2 (rlStep 2 (0, []))) = (60, [0, 0, 60]) ∧ (0 : Int) + 60 ≤ 60) ∧
    (∀ (now : Int) (ts : List Int),
      ∃ pre, ts = pre ++ dropOld now ts ∧ ∀ t ∈ pre, t < now - 60) ∧
    (∀ (r : Nat) (now : Int) (ts : List Int), 1 ≤ r →
      ((dropOld now ts).length < r →
        waitIfNeeded r now ts = (0, dropOld now ts ++ [now])) ∧
      (∀ t0 tl, dropOld now ts = t0 :: tl → r ≤ (dropOld now ts).length →
        waitIfNeeded r now ts =
          (max 0 (t0 + 60 - now), dropOld now ts ++ [now + max 0 (t0 + 60 - now)]))) := by
  refine ⟨⟨by decide, by decide⟩, ?_, ?_⟩
  · intro now ts
    induction ts with
    | nil => exact ⟨[], rfl, by simp⟩
    | cons t rest ih =>
      by_cases h : t < now - 60
      · rcases ih with ⟨pre, hpre, hold⟩
        refine ⟨t :: pre, ?_, ?_⟩
        · have hd : dropOld now (t :: rest) = dropOld now rest := by simp [dropOld, h]
          rw [hd, List.cons_append, ← hpre]
        · intro x hx
          rcases List.mem_cons.1 hx with rfl | hx
          · exact h
          · exact hold x hx
      · exact ⟨[], by simp [dropOld, h], by simp⟩
  · intro r now ts hr
    constructor
    · intro hlt
      unfold waitIfNeeded
      simp [Nat.not_le.2 hlt]
    · intro t0 tl heq hge
      unfold waitIfNeeded
      rw [heq] at hge ⊢
      simp [hge]
      exact fun hcon => absurd hge (Nat.not_le.2 hcon)

/-- Witness for C8 at a concrete state: limiter at 2/minute, clock 100,
deque `[50, 60]` — no timestamp is stale, the window is full, and the call
sleeps `50 + 60 - 100 = 10` seconds before recording time 110. -/
theorem rate_limiter_window_C8_witness :
    waitIfNeeded 2 100 [50, 60] = (10, [50, 60, 110]) :=
  ((rate_limiter_window_C8.2.2 2 100 [50, 60] (by decide)).2 50 [60] (by decide)
    (by decide)).trans (by decide)

/-! ## Claim C9: checkpoint-load failures and partial restoration -/

/-- Whether `_load_checkpoint` raises before restoring any field: the
checkpoint is not a JSON object, or its `names` value cannot be turned
into a set. -/
def loadRaisesEarly (j : JsonVal) : Bool :=
  match j with
  | JsonVal.obj fs => (pySet (getFieldD fs "names" (JsonVal.arr []))).isNone
  | _ => true

/-- Counterexample to claim C9 at a concrete input: loading the checkpoint
`\x7b"names": ["a"], "visited_prefixes": 7\x7d` raises (`set(7)` is a
`TypeError`, caught and logged as a failed load), yet the crawler is left
partially restored — `names` holds `"a"` while `visited_prefixes` and
`request_count` keep their initial empty values — not in the empty state
the claim requires after a failed load. -/
theorem checkpoint_load_C9_counterexample :
    loadRaises (JsonVal.obj [("names", JsonVal.arr [JsonVal.str "a"]),
        ("visited_prefixes", JsonVal.num 7)]) = true ∧
    (loadCheckpoint (JsonVal.obj [("names", JsonVal.arr [JsonVal.str "a"]),
        ("visited_prefixes", JsonVal.num 7)]) initLoadState).names =
      {PyScalar.str "a"} ∧
    (loadCheckpoint (JsonVal.obj [("names", JsonVal.arr [JsonVal.str "a"]),
        ("visited_prefixes", JsonVal.num 7)]) initLoadState).visited = ∅ ∧
    (loadCheckpoint (JsonVal.obj [("names", JsonVal.arr [JsonVal.str "a"]),
        ("visited_prefixes", JsonVal.num 7)]) initLoadState).names ≠
      initLoadState.names :=
  ⟨rfl, by decide, by decide, by decide⟩

/-- Claim C9 (amended): a checkpoint-load failure that hits before any
field is restored — the file missing or unparseable (no `loadCheckpoint`
call at all), a non-object checkpoint, or a `names` value that `set()`
rejects — leaves the crawl in its initial state (empty `names`, empty
`visited_prefixes`, `request_count` 0), re-deriving `visitedPrefixes` from
scratch.  But a failure at the second assignment (a convertible `names`
followed by a `visited_prefixes` that `set()` rejects) leaves the crawler
partially restored: `names` updated, the other two fields initial. -/
theorem checkpoint_load_C9_amended (j : JsonVal) (init : LoadState) :
    (loadRaisesEarly j = true → loadCheckpoint j init = init) ∧
    (∀ fs ns, j = JsonVal.obj fs →
      pySet (getFieldD fs "names" (JsonVal.arr [])) = some ns →
      pySet (getFieldD fs "visited_prefixes" (JsonVal.arr [])) = none →
      loadCheckpoint j init = { init with names := ns }) := by
  constructor
  · intro hearly
    cases j with
    | obj fs =>
      have hnone : pySet (getFieldD fs "names" (JsonVal.arr [])) = none :=
        Option.isNone_iff_eq_none.1 hearly
      simp [loadCheckpoint, hnone]
    | null => rfl
    | boolv b => rfl
    | num n => rfl
    | str s => rfl
    | arr xs => rfl
  · rintro fs ns rfl h1 h2
    simp [loadCheckpoint, h1, h2]

/-- Witness for the amended C9: a scalar checkpoint (raises on `.get`)
leaves the initial state untouched; a checkpoint whose `names` is `["b"]`
and whose `visited_prefixes` is `true` restores names only. -/
theorem checkpoint_load_C9_amended_witness :
    loadCheckpoint (JsonVal.num 3) initLoadState = initLoadState ∧
    loadCheckpoint (JsonVal.obj [("names", JsonVal.arr [JsonVal.str "b"]),
        ("visited_prefixes", JsonVal.boolv true)]) initLoadState =
      { initLoadState with names := {PyScalar.str "b"} } :=
  ⟨(checkpoint_load_C9_amended (JsonVal.num 3) initLoadState).1 rfl,
    (checkpoint_load_C9_amended (JsonVal.obj [("names", JsonVal.arr [JsonVal.str "b"]),
        ("visited_prefixes", JsonVal.boolv true)]) initLoadState).2 _ _ rfl (by decide) rfl⟩

/-! ## Claim C10: response-field priority -/

/-- Claim C10: on a 200 JSON-object payload the client selects the value
by the fixed textual `if`/`elif` order of `api_client.py` lines 47-52 —
`results` first, then `suggestions`, then `names` — whenever several of
the fields are present; `normalize200` is a pure function of the payload,
so the selected value depends only on the payload. -/
theorem response_priority_C10 (fs : List (String × JsonVal)) :
    (∀ v, lookupField fs "results" = some v → normalize200 (JsonVal.obj fs) = v) ∧
    (lookupField fs "results" = none →
      ∀ v, lookupField fs "suggestions" = some v → normalize200 (JsonVal.obj fs) = v) ∧
    (lookupField fs "results" = none → lookupField fs "suggestions" = none →
      ∀ v, lookupField fs "names" = some v → normalize200 (JsonVal.obj fs) = v) := by
  refine ⟨?_, ?_, ?_⟩
  · intro v hv
    simp [normalize200, hv]
  · intro h1 v hv
    simp [normalize200, h1, hv]
  · intro h1 h2 v hv
    simp [normalize200, h1, h2, hv]

/-- Witness for C10: with all three fields present, `results` wins; with
`suggestions` and `names` present, `suggestions` wins. -/
theorem response_priority_C10_witness :
    normalize200 (JsonVal.obj [("names", JsonVal.num 3), ("suggestions", JsonVal.num 2),
        ("results", JsonVal.num 1)]) = JsonVal.num 1 ∧
    normalize200 (JsonVal.obj [("names", JsonVal.num 3), ("suggestions", JsonVal.num 2)]) =
      JsonVal.num 2 :=
  ⟨(response_priority_C10 [("names", JsonVal.num 3), ("suggestions", JsonVal.num 2),
      ("results", JsonVal.num 1)]).1 _ rfl,
    (response_priority_C10 [("names", JsonVal.num 3),
      ("suggestions", JsonVal.num 2)]).2.1 rfl _ rfl⟩
